import Mathlib

/-!
Verification of the snake game logic in src/src/snake/SnakeGame.jsx.

The game core is embedded shallowly: the React component state becomes a
record, the setSnake updater that performs one logical move becomes the
pure function Snake.step, and the per-frame callback registered through
useAnimationFrame becomes Snake.tick.  Randomness (Math.random draws in
placeFood and maybeSpawnSpecial) is made explicit: callers pass the
realized draw sequence, and placeFood itself is modelled over the list of
draws its loop would consume.  React functional-updater semantics are
respected: a value read inside the updater closure is the value from the
current render, so the tail-pop test reads the pre-step pendingGrowth.
Times and speeds (seconds, cells per second) are modelled as rationals.
-/

namespace Snake

/-- A logical grid cell, mirroring the JS objects with integer fields x, y. -/
structure Pos where
  x : Int
  y : Int
deriving DecidableEq, Repr

/-- GRID_COLS constant (line 7 of the source). -/
def GRID_COLS : Int := 32

/-- GRID_ROWS constant (line 8 of the source). -/
def GRID_ROWS : Int := 32

/-- BASE_SPEED_PER_LEVEL constant, 2.2 cells per second per level unit. -/
def BASE_SPEED_PER_LEVEL : ℚ := 22 / 10

/-- NORMAL_POINTS constant: flat award for regular food. -/
def NORMAL_POINTS : Nat := 15

/-- SPECIAL_POINTS constant: flat award for special food. -/
def SPECIAL_POINTS : Nat := 30

/-- SPECIAL_DURATION constant: lifetime of a special food, seconds. -/
def SPECIAL_DURATION : ℚ := 5

/-- SPECIAL_CHANCE constant: probability 0.18 of a special spawn. -/
def SPECIAL_CHANCE : ℚ := 18 / 100

/-- SNAKE_INITIAL constant: the initial three-segment body. -/
def SNAKE_INITIAL : List Pos := [⟨8, 16⟩, ⟨7, 16⟩, ⟨6, 16⟩]

/-- INITIAL_LEVEL constant: DIFFICULTIES[0].level = 3. -/
def INITIAL_LEVEL : Nat := 3

/-- One axis of the wrap-around applied to nextHead in the setSnake updater:
if v is below 0 it becomes limit - 1, if it is at least limit it becomes 0,
otherwise it is unchanged (source lines 319 to 322). -/
def wrapCoord (v limit : Int) : Int :=
  if v < 0 then limit - 1
  else if limit ≤ v then 0
  else v

/-- Advancing a position by a direction vector with toroidal wrap, exactly
the nextHead computation of the setSnake updater (source lines 317 to 322). -/
def advance (p d : Pos) : Pos :=
  ⟨wrapCoord (p.x + d.x) GRID_COLS, wrapCoord (p.y + d.y) GRID_ROWS⟩

/-- The placeFood loop (source lines 148 to 154) evaluated on the realized
sequence of random draws: it returns the first draw that misses the snake,
and none when the given draw list is exhausted before a free cell appears
(the JS loop would keep drawing). -/
def placeFoodFind (samples : List Pos) (snake : List Pos) : Option Pos :=
  samples.find? (fun p => decide (p ∉ snake))

/-- The bounded retry loop inside maybeSpawnSpecial (source lines 159 to 169):
walk the draw stream from index i with the given fuel, accepting the first
draw distinct from the regular food and off the snake; on exhaustion fall
back to the regular food cell. -/
def findSpecialCell (smp : Nat → Pos) (regular : Pos) (snake : List Pos) :
    Nat → Nat → Pos
  | _, 0 => regular
  | i, Nat.succ fuel =>
    if smp i ≠ regular ∧ smp i ∉ snake then smp i
    else findSpecialCell smp regular snake (i + 1) fuel

/-- A special food record: cell plus spawn timestamp in seconds, as stored
by maybeSpawnSpecial (source line 164). -/
structure SpecialFood where
  pos : Pos
  spawnTime : ℚ
deriving DecidableEq, Repr

/-- maybeSpawnSpecial (source lines 156 to 172) with the Math.random roll and
the draw stream made explicit: when the roll is below SPECIAL_CHANCE it
returns a special food found by up to 200 draws (falling back to the regular
food cell), stamped with the current time; otherwise none. -/
def maybeSpawnSpecial (roll : ℚ) (smp : Nat → Pos) (now : ℚ)
    (regular : Pos) (snake : List Pos) : Option SpecialFood :=
  if roll < SPECIAL_CHANCE then
    some ⟨findSpecialCell smp regular snake 0 200, now⟩
  else none

/-- The logic-relevant component state of SnakeGame: snake body, committed
direction (dirRef), food, pendingGrowth, score, gameOver, level, speed,
special food and its displayed remaining time, the gameStarted and paused
flags, and the step accumulator accRef. -/
structure GameState where
  snake : List Pos
  dir : Pos
  food : Pos
  pendingGrowth : Nat
  score : Nat
  gameOver : Bool
  level : Nat
  speed : ℚ
  specialFood : Option SpecialFood
  specialRemaining : ℚ
  gameStarted : Bool
  paused : Bool
  acc : ℚ
deriving DecidableEq, Repr

/-- The four coarse session phases of the spec, derived in the component from
the three boolean flags. -/
inductive Phase where
  | NotStarted
  | Playing
  | Paused
  | GameOver
deriving DecidableEq, Repr

/-- The phase encoded by the flags gameStarted, paused, gameOver: gameOver
dominates, then not-yet-started, then paused, else playing. -/
def GameState.phase (s : GameState) : Phase :=
  if s.gameOver then Phase.GameOver
  else if s.gameStarted then (if s.paused then Phase.Paused else Phase.Playing)
  else Phase.NotStarted

/-- The wrapped next head position a step would move to: advance the current
head (prev[0]) by the committed direction. -/
def nextHeadOf (s : GameState) : Pos :=
  advance (s.snake.headD ⟨0, 0⟩) s.dir

/-- One logical step: the body of the setSnake updater (source lines 315 to
371), with the queued setState updates applied in order.  nf plays the role
of placeFood (it receives the candidate new snake), roll and smp feed
maybeSpawnSpecial, now is the current time.  The tail-pop test reads
s.pendingGrowth, the value captured by the updater closure from the current
render, exactly as the JS code does. -/
def step (nf : List Pos → Pos) (roll : ℚ) (smp : Nat → Pos) (now : ℚ)
    (s : GameState) : GameState :=
  let nextHead := advance (s.snake.headD ⟨0, 0⟩) s.dir
  if nextHead ∈ s.snake then
    { s with gameOver := true }
  else
    let newSnake := nextHead :: s.snake
    let nfPos := nf newSnake
    let sp := maybeSpawnSpecial roll smp now nfPos newSnake
    let eatRegularState : GameState :=
      { s with snake := newSnake,
               score := s.score + NORMAL_POINTS,
               food := nfPos,
               specialFood := sp,
               specialRemaining :=
                 if sp.isSome then SPECIAL_DURATION else s.specialRemaining,
               pendingGrowth := s.pendingGrowth + 1 }
    let s1 : GameState :=
      match s.specialFood with
      | some sf =>
        if nextHead = sf.pos then
          { s with snake := newSnake,
                   score := s.score + SPECIAL_POINTS,
                   specialFood := none,
                   specialRemaining := 0,
                   pendingGrowth := s.pendingGrowth + 2 }
        else if nextHead = s.food then eatRegularState
        else { s with snake := newSnake }
      | none =>
        if nextHead = s.food then eatRegularState
        else { s with snake := newSnake }
    if 0 < s.pendingGrowth then
      { s1 with pendingGrowth := s1.pendingGrowth - 1 }
    else
      { s1 with snake := s1.snake.dropLast }

/-- One invocation of the useAnimationFrame update callback (source lines 309
to 387): return unchanged unless playing; add dt to the accumulator; if it
reached stepInterval = 1 / speed, subtract once and perform one logical
step; then run the special-food expiry housekeeping, whose guard reads the
specialFood captured at the start of the tick. -/
def tick (nf : List Pos → Pos) (roll : ℚ) (smp : Nat → Pos) (now dt : ℚ)
    (s : GameState) : GameState :=
  if ¬s.gameStarted ∨ s.paused ∨ s.gameOver then s
  else
    let acc1 := s.acc + dt
    let stepInterval := 1 / s.speed
    let s2 :=
      if stepInterval ≤ acc1 then
        step nf roll smp now { s with acc := acc1 - stepInterval }
      else
        { s with acc := acc1 }
    match s.specialFood with
    | none => s2
    | some sf =>
      let left := max 0 (SPECIAL_DURATION - (now - sf.spawnTime))
      if left ≤ 0 then { s2 with specialFood := none, specialRemaining := 0 }
      else { s2 with specialRemaining := left }

/-- handleDirection (source lines 215 to 221): a requested direction equal to
the componentwise negation of the committed one is ignored, any other
request replaces the committed direction. -/
def handleDirection (next : Pos) (s : GameState) : GameState :=
  if next.x = -s.dir.x ∧ next.y = -s.dir.y then s
  else { s with dir := next }

/-- The direction branch of keyHandler (source lines 225 to 228): direction
keys are dropped unless the game is started, unpaused and not over;
otherwise they go through handleDirection. -/
def keyDirection (d : Pos) (s : GameState) : GameState :=
  if ¬s.gameStarted ∨ s.paused ∨ s.gameOver then s
  else handleDirection d s

/-- onTouchEnd of the swipe handler (source lines 263 to 268): given the
swipe displacement, below the 24 px threshold nothing happens; otherwise the
dominant axis picks a unit direction passed to handleDirection, with no
phase check of any kind. -/
def onTouchEnd (dx dy : ℚ) (s : GameState) : GameState :=
  if |dx| < 24 ∧ |dy| < 24 then s
  else if |dy| < |dx| then
    handleDirection ⟨if 0 < dx then 1 else -1, 0⟩ s
  else
    handleDirection ⟨0, if 0 < dy then 1 else -1⟩ s

/-- A click on a difficulty button (source line 739): the button is disabled
exactly when gameStarted and not gameOver and score is positive; an enabled
click sets the level and the derived speed. -/
def selectDifficulty (lvl : Nat) (s : GameState) : GameState :=
  if s.gameStarted ∧ ¬s.gameOver ∧ 0 < s.score then s
  else { s with level := lvl, speed := BASE_SPEED_PER_LEVEL * (lvl : ℚ) }

/-- restart (source lines 280 to 290): reset snake, direction, food (a fresh
placeFood draw over the initial body, abstracted by nf), pendingGrowth,
score, gameOver, special food and its timer, and reapply the speed derived
from the currently selected level.  The accumulator accRef is not touched
by the source restart, and neither is it here. -/
def restart (nf : List Pos → Pos) (s : GameState) : GameState :=
  { s with snake := SNAKE_INITIAL,
           dir := ⟨1, 0⟩,
           food := nf SNAKE_INITIAL,
           pendingGrowth := 0,
           score := 0,
           gameOver := false,
           speed := BASE_SPEED_PER_LEVEL * (s.level : ℚ),
           specialFood := none,
           specialRemaining := 0 }

/-- Does the next head hit the pre-step body? (the self-collision test of the
updater, source line 324). -/
def selfCollides (s : GameState) : Bool :=
  decide (nextHeadOf s ∈ s.snake)

/-- Does this step eat the special food? (source line 331). -/
def eatsSpecial (s : GameState) : Bool :=
  match s.specialFood with
  | some sf => decide (nextHeadOf s = sf.pos)
  | none => false

/-- Does this step eat the regular food? (the else-if at source line 340). -/
def eatsRegular (s : GameState) : Bool :=
  !eatsSpecial s && decide (nextHeadOf s = s.food)

/-- The score increment of one step: 0 on collision, the flat special award
when the special food is eaten, the flat regular award when the regular food
is eaten, 0 otherwise.  It mentions neither the level nor the clock. -/
def scoreDelta (s : GameState) : Nat :=
  if selfCollides s then 0
  else if eatsSpecial s then SPECIAL_POINTS
  else if eatsRegular s then NORMAL_POINTS
  else 0

/-- The pendingGrowth increment queued by the eating branches of one step:
2 for special food, 1 for regular food, else 0. -/
def growthDelta (s : GameState) : Nat :=
  if selfCollides s then 0
  else if eatsSpecial s then 2
  else if eatsRegular s then 1
  else 0

/-- The spec notion of draining the accumulator, written from the spec words:
while acc is at least stepInterval, subtract stepInterval and perform one
logical step.  Stated with explicit fuel bounding the number of loop
iterations; returns the final accumulator and state. -/
def drainLoop (nf : List Pos → Pos) (roll : ℚ) (smp : Nat → Pos)
    (now stepInterval : ℚ) : Nat → ℚ → GameState → ℚ × GameState
  | 0, acc, s => (acc, s)
  | Nat.succ fuel, acc, s =>
    if stepInterval ≤ acc then
      drainLoop nf roll smp now stepInterval fuel (acc - stepInterval)
        (step nf roll smp now s)
    else (acc, s)

/-- A default oracle standing for one realized placeFood outcome. -/
def nfC : List Pos → Pos := fun _ => ⟨0, 0⟩

/-- A default realized draw stream for maybeSpawnSpecial. -/
def smpC : Nat → Pos := fun _ => ⟨0, 0⟩

/-- A playing state at level 3 about to move right from the initial body,
with the food parked away from the path. -/
def basePlaying : GameState :=
  { snake := SNAKE_INITIAL, dir := ⟨1, 0⟩, food := ⟨0, 0⟩,
    pendingGrowth := 0, score := 0, gameOver := false,
    level := 3, speed := 33 / 5, specialFood := none, specialRemaining := 0,
    gameStarted := true, paused := false, acc := 0 }

/-- Membership of a position in the logical grid. -/
def inGrid (p : Pos) : Prop :=
  0 ≤ p.x ∧ p.x < GRID_COLS ∧ 0 ≤ p.y ∧ p.y < GRID_ROWS

instance : DecidablePred inGrid := fun p => by
  unfold inGrid; infer_instance

/-- The four unit direction vectors of the DIRECTIONS table. -/
def unitDirs : List Pos := [⟨0, -1⟩, ⟨0, 1⟩, ⟨-1, 0⟩, ⟨1, 0⟩]

/-- The conditional wrap of one axis agrees with the additive modulus formula
whenever the incoming value overshoots the 32-cell range by at most one. -/
theorem wrapCoord_eq_emod (v : Int) (h1 : -1 ≤ v) (h2 : v ≤ 32) :
    wrapCoord v 32 = (v + 32) % 32 ∧
    0 ≤ wrapCoord v 32 ∧ wrapCoord v 32 < 32 := by
  unfold wrapCoord
  split
  · omega
  · split <;> omega

/-- C9: for every in-grid position and unit direction, advance adds the
direction componentwise and wraps each axis by the additive modulus formula,
and the result stays inside the grid. -/
theorem advance_wrap_correct (p d : Pos) (hp : inGrid p) (hd : d ∈ unitDirs) :
    advance p d =
      ⟨(p.x + d.x + GRID_COLS) % GRID_COLS,
       (p.y + d.y + GRID_ROWS) % GRID_ROWS⟩ ∧
    inGrid (advance p d) := by
  obtain ⟨hx0, hx1, hy0, hy1⟩ := hp
  simp only [GRID_COLS, GRID_ROWS] at hx1 hy1
  have hdrange : (-1 ≤ d.x ∧ d.x ≤ 1) ∧ (-1 ≤ d.y ∧ d.y ≤ 1) := by
    simp only [unitDirs, List.mem_cons, List.not_mem_nil, or_false] at hd
    rcases hd with h | h | h | h <;> subst h <;> simp
  obtain ⟨⟨h1, h2⟩, h3, h4⟩ := hdrange
  have hx := wrapCoord_eq_emod (p.x + d.x) (by omega) (by omega)
  have hy := wrapCoord_eq_emod (p.y + d.y) (by omega) (by omega)
  unfold advance inGrid GRID_COLS GRID_ROWS
  refine ⟨?_, hx.2.1, hx.2.2, hy.2.1, hy.2.2⟩
  simp only [Pos.mk.injEq]
  exact ⟨hx.1, hy.1⟩

/-- Witness for C9 at the spec example: advancing (0,5) by (-1,0) lands on
(31,5), through the wrap formula, inside the grid. -/
theorem advance_wrap_correct_witness :
    inGrid ⟨0, 5⟩ ∧ (⟨-1, 0⟩ : Pos) ∈ unitDirs ∧
    advance ⟨0, 5⟩ ⟨-1, 0⟩ = ⟨31, 5⟩ ∧
    (advance ⟨0, 5⟩ ⟨-1, 0⟩ =
      ⟨(Pos.x ⟨0, 5⟩ + Pos.x ⟨-1, 0⟩ + GRID_COLS) % GRID_COLS,
       (Pos.y ⟨0, 5⟩ + Pos.y ⟨-1, 0⟩ + GRID_ROWS) % GRID_ROWS⟩ ∧
     inGrid (advance ⟨0, 5⟩ ⟨-1, 0⟩)) :=
  ⟨by decide, by decide, by decide,
   advance_wrap_correct ⟨0, 5⟩ ⟨-1, 0⟩ (by decide) (by decide)⟩

/-- C1: when the wrapped next head hits any segment of the pre-step body, the
step only flips gameOver: the phase becomes GameOver and body, score, food,
special food and pendingGrowth are exactly the pre-step ones. -/
theorem step_self_collision (nf : List Pos → Pos) (roll : ℚ) (smp : Nat → Pos)
    (now : ℚ) (s : GameState) (h : nextHeadOf s ∈ s.snake) :
    step nf roll smp now s = { s with gameOver := true } ∧
    (step nf roll smp now s).phase = Phase.GameOver ∧
    (step nf roll smp now s).snake = s.snake ∧
    (step nf roll smp now s).score = s.score ∧
    (step nf roll smp now s).food = s.food ∧
    (step nf roll smp now s).specialFood = s.specialFood ∧
    (step nf roll smp now s).pendingGrowth = s.pendingGrowth := by
  unfold nextHeadOf at h
  have hstep : step nf roll smp now s = { s with gameOver := true } := by
    simp only [step]
    rw [if_pos h]
  refine ⟨hstep, ?_, by rw [hstep], by rw [hstep], by rw [hstep],
    by rw [hstep], by rw [hstep]⟩
  rw [hstep]
  simp [GameState.phase]

/-- A playing state about to reverse into its own neck. -/
def collideState : GameState := { basePlaying with dir := ⟨-1, 0⟩ }

/-- Witness for C1: moving left from the initial body hits the neck segment
(7,16); the step flips only gameOver. -/
theorem step_self_collision_witness :
    nextHeadOf collideState ∈ collideState.snake ∧
    (step nfC 1 smpC 0 collideState = { collideState with gameOver := true } ∧
     (step nfC 1 smpC 0 collideState).phase = Phase.GameOver ∧
     (step nfC 1 smpC 0 collideState).snake = collideState.snake ∧
     (step nfC 1 smpC 0 collideState).score = collideState.score ∧
     (step nfC 1 smpC 0 collideState).food = collideState.food ∧
     (step nfC 1 smpC 0 collideState).specialFood = collideState.specialFood ∧
     (step nfC 1 smpC 0 collideState).pendingGrowth =
       collideState.pendingGrowth) :=
  ⟨by decide, step_self_collision nfC 1 smpC 0 collideState (by decide)⟩

/-- The collision branch of one step in isolation, shared by later proofs. -/
lemma step_eq_of_collide (nf : List Pos → Pos) (roll : ℚ) (smp : Nat → Pos)
    (now : ℚ) (s : GameState) (h : nextHeadOf s ∈ s.snake) :
    step nf roll smp now s = { s with gameOver := true } := by
  unfold nextHeadOf at h
  simp only [step]
  rw [if_pos h]

/-- Field description of a non-colliding step: the score grows by scoreDelta,
pendingGrowth is bumped by the consumption delta and decremented exactly when
the pre-step counter was positive, and the tail is dropped exactly when the
pre-step counter was zero. -/
lemma step_fields_no_collide (nf : List Pos → Pos) (roll : ℚ) (smp : Nat → Pos)
    (now : ℚ) (s : GameState) (hc : nextHeadOf s ∉ s.snake) :
    (step nf roll smp now s).score = s.score + scoreDelta s ∧
    (step nf roll smp now s).pendingGrowth =
      s.pendingGrowth + growthDelta s -
        (if 0 < s.pendingGrowth then 1 else 0) ∧
    (step nf roll smp now s).snake =
      (if 0 < s.pendingGrowth then nextHeadOf s :: s.snake
       else (nextHeadOf s :: s.snake).dropLast) := by
  have hc2 := hc
  unfold nextHeadOf at hc2
  unfold scoreDelta growthDelta selfCollides eatsSpecial eatsRegular nextHeadOf
  simp only [step]
  rw [if_neg hc2]
  rcases hsf : s.specialFood with _ | sf <;> simp only [hsf]
  · by_cases hf : advance (s.snake.headD ⟨0, 0⟩) s.dir = s.food <;>
      simp only [hf, if_pos, if_neg, hc2, decide_eq_true_eq, decide_True,
        decide_False, not_false_eq_true, Bool.not_false, Bool.not_true,
        Bool.true_and, Bool.false_and, if_true, if_false, ite_true, ite_false] <;>
      split <;>
      simp_all [eatsSpecial, nextHeadOf]
  · by_cases hsp : advance (s.snake.headD ⟨0, 0⟩) s.dir = sf.pos
    · simp only [hsp, hc2, decide_eq_true_eq, decide_True, decide_False,
        not_false_eq_true, if_true, if_false, ite_true, ite_false] <;>
      split <;> simp_all [eatsSpecial, nextHeadOf]
    · by_cases hf : advance (s.snake.headD ⟨0, 0⟩) s.dir = s.food <;>
        simp only [hsp, hf, hc2, decide_eq_true_eq, decide_True, decide_False,
          not_false_eq_true, Bool.not_false, Bool.not_true, Bool.true_and,
          Bool.false_and, if_true, if_false, ite_true, ite_false] <;>
        split <;> simp_all [eatsSpecial, nextHeadOf]

/-- C4: the score of a step grows by scoreDelta, a quantity defined without
reference to the level or the clock; it is exactly the flat special constant
when special food is eaten and the flat regular constant when regular food is
eaten, and the score never decreases. -/
theorem step_score_flat (nf : List Pos → Pos) (roll : ℚ) (smp : Nat → Pos)
    (now : ℚ) (s : GameState) :
    (step nf roll smp now s).score = s.score + scoreDelta s ∧
    s.score ≤ (step nf roll smp now s).score ∧
    (selfCollides s = false → eatsSpecial s = true →
      (step nf roll smp now s).score = s.score + SPECIAL_POINTS) ∧
    (selfCollides s = false → eatsRegular s = true →
      (step nf roll smp now s).score = s.score + NORMAL_POINTS) := by
  have key : (step nf roll smp now s).score = s.score + scoreDelta s := by
    by_cases hc : nextHeadOf s ∈ s.snake
    · rw [step_eq_of_collide nf roll smp now s hc]
      have : selfCollides s = true := by
        unfold selfCollides; exact decide_eq_true hc
      simp [scoreDelta, this]
    · exact (step_fields_no_collide nf roll smp now s hc).1
  refine ⟨key, by omega, ?_, ?_⟩
  · intro h1 h2
    rw [key]
    simp [scoreDelta, h1, h2]
  · intro h1 h2
    have h3 : eatsSpecial s = false := by
      unfold eatsRegular at h2
      rcases Bool.and_eq_true_iff.mp h2 with ⟨ha, _⟩
      simpa using ha
    rw [key]
    simp [scoreDelta, h1, h2, h3]

/-- A playing state whose next head cell holds the regular food. -/
def eatRegularNext : GameState := { basePlaying with food := ⟨9, 16⟩ }

/-- Witness for C4: stepping onto the regular food at level 3 adds exactly the
flat regular constant to the score. -/
theorem step_score_flat_witness :
    selfCollides eatRegularNext = false ∧
    eatsRegular eatRegularNext = true ∧
    ((step nfC 1 smpC 0 eatRegularNext).score =
        eatRegularNext.score + scoreDelta eatRegularNext ∧
     eatRegularNext.score ≤ (step nfC 1 smpC 0 eatRegularNext).score ∧
     (selfCollides eatRegularNext = false → eatsSpecial eatRegularNext = true →
       (step nfC 1 smpC 0 eatRegularNext).score =
         eatRegularNext.score + SPECIAL_POINTS) ∧
     (selfCollides eatRegularNext = false → eatsRegular eatRegularNext = true →
       (step nfC 1 smpC 0 eatRegularNext).score =
         eatRegularNext.score + NORMAL_POINTS)) :=
  ⟨by decide, by decide, step_score_flat nfC 1 smpC 0 eatRegularNext⟩

/-- Counterexample for C3: stepping onto regular food with pendingGrowth 0
leaves a post-consumption counter of 1 (positive), yet the tail is dropped
and the counter is not decremented: the body stays at length 3 where the
claim promises net growth to length 4.  The tail decision reads the pre-step
counter, not the post-consumption one. -/
theorem step_tail_post_counter_counterexample :
    eatRegularNext.pendingGrowth = 0 ∧
    eatRegularNext.snake.length = 3 ∧
    (step nfC 1 smpC 0 eatRegularNext).pendingGrowth = 1 ∧
    (step nfC 1 smpC 0 eatRegularNext).snake =
      [⟨9, 16⟩, ⟨8, 16⟩, ⟨7, 16⟩] ∧
    (step nfC 1 smpC 0 eatRegularNext).snake.length = 3 := by
  decide

/-- C3 amended: the tail handling of a non-colliding step is driven by the
pre-step pendingGrowth counter (the value captured by the updater closure
before the consumption updates of this step): if it was positive the full
body is kept and the updated counter is decremented; if it was zero the tail
segment is dropped and the counter becomes exactly this step's consumption
increment, so growth from an eat takes effect only on later steps. -/
theorem step_tail_pre_counter (nf : List Pos → Pos) (roll : ℚ)
    (smp : Nat → Pos) (now : ℚ) (s : GameState)
    (hc : nextHeadOf s ∉ s.snake) :
    (0 < s.pendingGrowth →
      (step nf roll smp now s).snake = nextHeadOf s :: s.snake ∧
      (step nf roll smp now s).pendingGrowth =
        s.pendingGrowth + growthDelta s - 1) ∧
    (s.pendingGrowth = 0 →
      (step nf roll smp now s).snake = (nextHeadOf s :: s.snake).dropLast ∧
      (step nf roll smp now s).pendingGrowth = growthDelta s) := by
  obtain ⟨-, hpg, hsn⟩ := step_fields_no_collide nf roll smp now s hc
  constructor
  · intro h
    rw [hsn, hpg, if_pos h, if_pos h]
    exact ⟨rfl, rfl⟩
  · intro h
    have h2 : ¬0 < s.pendingGrowth := by omega
    rw [hsn, hpg, if_neg h2, if_neg h2, h]
    exact ⟨rfl, by omega⟩

/-- Witness for C3 amended: with a positive pre-step counter the body keeps
its tail; the state below is eatRegularNext carrying pendingGrowth 1. -/
def eatRegularGrowing : GameState :=
  { eatRegularNext with pendingGrowth := 1 }

/-- Witness theorem for C3 amended, evaluated at eatRegularGrowing. -/
theorem step_tail_pre_counter_witness :
    nextHeadOf eatRegularGrowing ∉ eatRegularGrowing.snake ∧
    0 < eatRegularGrowing.pendingGrowth ∧
    ((step nfC 1 smpC 0 eatRegularGrowing).snake =
        nextHeadOf eatRegularGrowing :: eatRegularGrowing.snake ∧
     (step nfC 1 smpC 0 eatRegularGrowing).pendingGrowth =
        eatRegularGrowing.pendingGrowth + growthDelta eatRegularGrowing - 1) :=
  ⟨by decide, by decide,
   (step_tail_pre_counter nfC 1 smpC 0 eatRegularGrowing (by decide)).1
     (by decide)⟩

/-- The specialFood, food and score fields of a step that eats the regular
food while not colliding and not eating the special food. -/
lemma step_regular_eat_fields (nf : List Pos → Pos) (roll : ℚ)
    (smp : Nat → Pos) (now : ℚ) (s : GameState)
    (hc : nextHeadOf s ∉ s.snake)
    (hns : eatsSpecial s = false)
    (hf : nextHeadOf s = s.food) :
    (step nf roll smp now s).specialFood =
      maybeSpawnSpecial roll smp now (nf (nextHeadOf s :: s.snake))
        (nextHeadOf s :: s.snake) ∧
    (step nf roll smp now s).food = nf (nextHeadOf s :: s.snake) ∧
    (step nf roll smp now s).score = s.score + NORMAL_POINTS := by
  have hc2 := hc
  have hf2 := hf
  unfold nextHeadOf at hc2 hf2
  unfold nextHeadOf
  unfold eatsSpecial at hns
  simp only [step]
  rw [if_neg hc2]
  rcases hsf : s.specialFood with _ | sf <;> simp only [hsf]
  · rw [if_pos hf2]
    split <;> exact ⟨rfl, rfl, rfl⟩
  · have hne2 : ¬(advance (s.snake.headD ⟨0, 0⟩) s.dir = sf.pos) := by
      rw [hsf] at hns
      simpa [nextHeadOf] using hns
    rw [if_neg hne2, if_pos hf2]
    split <;> exact ⟨rfl, rfl, rfl⟩

/-- C10: when a step lands on the regular food while a special food is
active (and not itself hit), the special-food slot is unconditionally
overwritten with the outcome of a fresh spawn attempt over the new body,
the old special food earning nothing: the score grows only by the regular
constant. -/
theorem step_regular_overwrites_special (nf : List Pos → Pos) (roll : ℚ)
    (smp : Nat → Pos) (now : ℚ) (s : GameState) (sf : SpecialFood)
    (hsf : s.specialFood = some sf)
    (hne : nextHeadOf s ≠ sf.pos)
    (hc : nextHeadOf s ∉ s.snake)
    (hf : nextHeadOf s = s.food) :
    (step nf roll smp now s).specialFood =
      maybeSpawnSpecial roll smp now (nf (nextHeadOf s :: s.snake))
        (nextHeadOf s :: s.snake) ∧
    (step nf roll smp now s).food = nf (nextHeadOf s :: s.snake) ∧
    (step nf roll smp now s).score = s.score + NORMAL_POINTS := by
  apply step_regular_eat_fields nf roll smp now s hc ?_ hf
  unfold eatsSpecial
  rw [hsf]
  simpa using hne

/-- A playing state with an active special food elsewhere and the regular
food directly ahead. -/
def eatRegularWithSpecial : GameState :=
  { eatRegularNext with specialFood := some ⟨⟨20, 20⟩, 0⟩ }

/-- Witness for C10: eating the regular food with roll 1 (no fresh spawn)
discards the active special food, leaving the slot empty, and awards only
the regular constant. -/
theorem step_regular_overwrites_special_witness :
    eatRegularWithSpecial.specialFood = some ⟨⟨20, 20⟩, 0⟩ ∧
    nextHeadOf eatRegularWithSpecial ≠ (⟨20, 20⟩ : Pos) ∧
    nextHeadOf eatRegularWithSpecial ∉ eatRegularWithSpecial.snake ∧
    nextHeadOf eatRegularWithSpecial = eatRegularWithSpecial.food ∧
    ((step nfC 1 smpC 0 eatRegularWithSpecial).specialFood =
       maybeSpawnSpecial 1 smpC 0
         (nfC (nextHeadOf eatRegularWithSpecial :: eatRegularWithSpecial.snake))
         (nextHeadOf eatRegularWithSpecial :: eatRegularWithSpecial.snake) ∧
     (step nfC 1 smpC 0 eatRegularWithSpecial).food =
       nfC (nextHeadOf eatRegularWithSpecial :: eatRegularWithSpecial.snake) ∧
     (step nfC 1 smpC 0 eatRegularWithSpecial).score =
       eatRegularWithSpecial.score + NORMAL_POINTS) :=
  ⟨rfl, by decide, by decide, by decide,
   step_regular_overwrites_special nfC 1 smpC 0 eatRegularWithSpecial
     ⟨⟨20, 20⟩, 0⟩ rfl (by decide) (by decide) (by decide)⟩

/-- A step never touches the accumulator: accRef is only changed by the tick
wrapper, not inside the setSnake updater. -/
lemma step_acc (nf : List Pos → Pos) (roll : ℚ) (smp : Nat → Pos) (now : ℚ)
    (s : GameState) : (step nf roll smp now s).acc = s.acc := by
  simp only [step]
  repeat' split
  all_goals rfl

/-- A step never touches the speed either. -/
lemma step_speed (nf : List Pos → Pos) (roll : ℚ) (smp : Nat → Pos) (now : ℚ)
    (s : GameState) : (step nf roll smp now s).speed = s.speed := by
  simp only [step]
  repeat' split
  all_goals rfl

/-- The derived phase is Playing exactly when the game is started, unpaused
and not over. -/
lemma phase_playing_iff (s : GameState) :
    s.phase = Phase.Playing ↔
      s.gameStarted = true ∧ s.paused = false ∧ s.gameOver = false := by
  unfold GameState.phase
  cases hg : s.gameOver <;> cases hs : s.gameStarted <;> cases hp : s.paused <;>
    simp

/-- The derived phase is Playing or Paused exactly when the game is started
and not over. -/
lemma phase_active_iff (s : GameState) :
    (s.phase = Phase.Playing ∨ s.phase = Phase.Paused) ↔
      s.gameStarted = true ∧ s.gameOver = false := by
  unfold GameState.phase
  cases hg : s.gameOver <;> cases hs : s.gameStarted <;> cases hp : s.paused <;>
    simp

/-- C2 amended: while Playing, a tick adds dt to the accumulator and then
performs at most ONE logical step: if the grown accumulator reached
stepInterval = 1 / speed, exactly one stepInterval is subtracted and one
step runs (any further due steps are deferred to later ticks); otherwise
nothing moves.  This is the if-based source behavior, not the drain-all
loop of the claim. -/
theorem tick_at_most_one_step (nf : List Pos → Pos) (roll : ℚ)
    (smp : Nat → Pos) (now dt : ℚ) (s : GameState)
    (h : s.phase = Phase.Playing) :
    (1 / s.speed ≤ s.acc + dt →
      (tick nf roll smp now dt s).acc = s.acc + dt - 1 / s.speed ∧
      (tick nf roll smp now dt s).snake =
        (step nf roll smp now
          { s with acc := s.acc + dt - 1 / s.speed }).snake) ∧
    (s.acc + dt < 1 / s.speed →
      (tick nf roll smp now dt s).acc = s.acc + dt ∧
      (tick nf roll smp now dt s).snake = s.snake) := by
  obtain ⟨hs, hp, hg⟩ := (phase_playing_iff s).mp h
  have hguard : ¬(¬s.gameStarted ∨ s.paused ∨ s.gameOver) := by
    simp [hs, hp, hg]
  constructor
  · intro hdue
    simp only [tick]
    rw [if_neg hguard, if_pos hdue]
    rcases hsf : s.specialFood with _ | sf <;> simp only [hsf]
    · exact ⟨step_acc nf roll smp now _, by trivial⟩
    · split <;> exact ⟨step_acc nf roll smp now _, by trivial⟩
  · intro hnot
    have hnot2 : ¬(1 / s.speed ≤ s.acc + dt) := by exact not_le.mpr hnot
    simp only [tick]
    rw [if_neg hguard, if_neg hnot2]
    rcases hsf : s.specialFood with _ | sf <;> simp only [hsf]
    · exact ⟨by trivial, by trivial⟩
    · split <;> exact ⟨by trivial, by trivial⟩

/-- Witness for C2 amended at a level-3 playing state: dt worth two steps
still advances the accumulator computation by a single stepInterval. -/
theorem tick_at_most_one_step_witness :
    basePlaying.phase = Phase.Playing ∧
    1 / basePlaying.speed ≤ basePlaying.acc + 10 / 33 ∧
    ((tick nfC 1 smpC 0 (10 / 33) basePlaying).acc =
        basePlaying.acc + 10 / 33 - 1 / basePlaying.speed ∧
     (tick nfC 1 smpC 0 (10 / 33) basePlaying).snake =
        (step nfC 1 smpC 0
          { basePlaying with
              acc := basePlaying.acc + 10 / 33 - 1 / basePlaying.speed }).snake) :=
  ⟨by decide, by norm_num [basePlaying],
   (tick_at_most_one_step nfC 1 smpC 0 (10 / 33) basePlaying (by decide)).1
     (by norm_num [basePlaying])⟩

/-- Counterexample for C2: from a level-3 playing state with an empty
accumulator, a tick of dt = 2 stepIntervals moves the snake by one cell only
and leaves a full stepInterval in the accumulator (a due step was NOT
executed), whereas draining the accumulator as the claim demands would move
the snake two cells and empty the accumulator. -/
theorem tick_single_step_counterexample :
    1 / basePlaying.speed = 5 / 33 ∧
    (tick nfC 1 smpC 0 (10 / 33) basePlaying).snake =
      [⟨9, 16⟩, ⟨8, 16⟩, ⟨7, 16⟩] ∧
    (tick nfC 1 smpC 0 (10 / 33) basePlaying).acc = 5 / 33 ∧
    ¬((tick nfC 1 smpC 0 (10 / 33) basePlaying).acc < 1 / basePlaying.speed) ∧
    (drainLoop nfC 1 smpC 0 (5 / 33) 2 (10 / 33) basePlaying).2.snake =
      [⟨10, 16⟩, ⟨9, 16⟩, ⟨8, 16⟩] ∧
    (drainLoop nfC 1 smpC 0 (5 / 33) 2 (10 / 33) basePlaying).1 = 0 ∧
    (tick nfC 1 smpC 0 (10 / 33) basePlaying).snake ≠
      (drainLoop nfC 1 smpC 0 (5 / 33) 2 (10 / 33) basePlaying).2.snake := by
  norm_num [tick, step, basePlaying, drainLoop, advance, wrapCoord, GRID_COLS,
    GRID_ROWS, SNAKE_INITIAL, nfC, smpC, maybeSpawnSpecial, SPECIAL_CHANCE,
    Pos.mk.injEq]

/-- Two positions agreeing on both coordinates are equal. -/
lemma Pos.ext_xy {p q : Pos} (hx : p.x = q.x) (hy : p.y = q.y) : p = q := by
  cases p
  cases q
  simp_all

/-- State after one logical step from basePlaying: that step committed the
direction (1,0). -/
def trace1 : GameState := step nfC 1 smpC 0 basePlaying

/-- trace1 after an accepted key turn up. -/
def trace2 : GameState := keyDirection ⟨0, -1⟩ trace1

/-- trace2 after an accepted key turn left: two accepted turns between two
consecutive steps. -/
def trace3 : GameState := keyDirection ⟨-1, 0⟩ trace2

/-- Counterexample for C5: the step out of basePlaying commits (1,0); after
two accepted key intents (up, then left) the very next step commits (-1,0),
the exact componentwise negation of the previous committed direction — and
indeed that step drives the head into the neck, ending the game.  Only a
single intent between steps is guarded, not the step-to-step invariant. -/
theorem committed_reversal_counterexample :
    basePlaying.dir = ⟨1, 0⟩ ∧
    trace1.dir = ⟨1, 0⟩ ∧
    trace2.dir = ⟨0, -1⟩ ∧
    trace3.dir = ⟨-1, 0⟩ ∧
    trace3.dir.x = -basePlaying.dir.x ∧
    trace3.dir.y = -basePlaying.dir.y ∧
    (step nfC 1 smpC 0 trace3).gameOver = true := by
  decide

/-- C5 amended: a single direction-change request equal to the reverse of
the current committed direction is ignored, and no single accepted request
can set the committed direction to that reverse; hence opposite commitments
on consecutive steps require at least two accepted requests in between
(which the code permits, per the counterexample). -/
theorem handleDirection_no_reverse (next : Pos) (s : GameState)
    (h : s.dir ≠ ⟨0, 0⟩) :
    handleDirection ⟨-s.dir.x, -s.dir.y⟩ s = s ∧
    (handleDirection next s).dir ≠ ⟨-s.dir.x, -s.dir.y⟩ := by
  constructor
  · unfold handleDirection
    rw [if_pos ⟨rfl, rfl⟩]
  · unfold handleDirection
    split
    · intro habs
      have hx : s.dir.x = -s.dir.x := by simpa using congrArg Pos.x habs
      have hy : s.dir.y = -s.dir.y := by simpa using congrArg Pos.y habs
      refine h (Pos.ext_xy ?_ ?_)
      · show s.dir.x = 0
        omega
      · show s.dir.y = 0
        omega
    · rename_i hcond
      intro habs
      refine hcond ⟨?_, ?_⟩
      · simpa using congrArg Pos.x habs
      · simpa using congrArg Pos.y habs

/-- Witness for C5 amended at basePlaying: a reverse request is a no-op and
an accepted turn up does not produce the reverse. -/
theorem handleDirection_no_reverse_witness :
    basePlaying.dir ≠ ⟨0, 0⟩ ∧
    (handleDirection ⟨-basePlaying.dir.x, -basePlaying.dir.y⟩ basePlaying =
       basePlaying ∧
     (handleDirection ⟨0, -1⟩ basePlaying).dir ≠
       ⟨-basePlaying.dir.x, -basePlaying.dir.y⟩) :=
  ⟨by decide, handleDirection_no_reverse ⟨0, -1⟩ basePlaying (by decide)⟩

/-- basePlaying with the pause flag raised: phase Paused. -/
def pausedState : GameState := { basePlaying with paused := true }

/-- C6 amended: keyboard direction intents are dropped whenever the phase is
not Playing and delegate to handleDirection when it is, while swipe intents
are processed identically in every phase: the three phase flags have no
influence on the committed direction a swipe produces. -/
theorem direction_intent_gating (d : Pos) (dx dy : ℚ) (s : GameState) :
    (s.phase ≠ Phase.Playing → keyDirection d s = s) ∧
    (s.phase = Phase.Playing → keyDirection d s = handleDirection d s) ∧
    (∀ g p o : Bool,
      (onTouchEnd dx dy
        { s with gameStarted := g, paused := p, gameOver := o }).dir =
      (onTouchEnd dx dy s).dir) := by
  refine ⟨?_, ?_, ?_⟩
  · intro h
    cases hg : s.gameOver <;> cases hs : s.gameStarted <;>
      cases hp : s.paused <;> simp_all [keyDirection, GameState.phase]
  · intro h
    cases hg : s.gameOver <;> cases hs : s.gameStarted <;>
      cases hp : s.paused <;> simp_all [keyDirection, GameState.phase]
  · intro g p o
    simp only [onTouchEnd, handleDirection]
    split_ifs <;> rfl

/-- Witness for C6 amended: while Paused a keyboard turn is a no-op. -/
theorem direction_intent_gating_witness :
    pausedState.phase ≠ Phase.Playing ∧
    keyDirection ⟨0, -1⟩ pausedState = pausedState :=
  ⟨by decide, (direction_intent_gating ⟨0, -1⟩ 0 0 pausedState).1 (by decide)⟩

/-- Counterexample for C6: a swipe up while the phase is Paused is accepted —
the committed direction changes from (1,0) to (0,-1) although the phase is
not Playing, contradicting the claim that every direction intent is
rejected outside Playing. -/
theorem touch_ignores_phase_counterexample :
    pausedState.phase = Phase.Paused ∧
    pausedState.dir = ⟨1, 0⟩ ∧
    (onTouchEnd 0 (-30) pausedState).dir = ⟨0, -1⟩ ∧
    (onTouchEnd 0 (-30) pausedState).dir ≠ pausedState.dir := by
  refine ⟨by decide, by decide, ?_, ?_⟩ <;>
    norm_num [onTouchEnd, handleDirection, pausedState, basePlaying,
      Pos.mk.injEq]

/-- A finished session with a positive score, still at level 3. -/
def gameOverScored : GameState :=
  { basePlaying with gameOver := true, score := 30 }

/-- Counterexample for C7: in phase GameOver with score 30 the difficulty
button is enabled (the disabled condition requires an active, non-over
session), so selecting Very Hard changes the level and the speed although
the score is positive — the claim says it must be a no-op in every phase
while score > 0. -/
theorem selectDifficulty_gameover_counterexample :
    gameOverScored.phase = Phase.GameOver ∧
    0 < gameOverScored.score ∧
    gameOverScored.level = 3 ∧
    (selectDifficulty 9 gameOverScored).level = 9 ∧
    (selectDifficulty 9 gameOverScored).speed =
      BASE_SPEED_PER_LEVEL * ((9 : ℕ) : ℚ) := by
  refine ⟨by decide, by decide, by decide, ?_, ?_⟩ <;>
    norm_num [selectDifficulty, gameOverScored, basePlaying]

/-- C7 amended: a difficulty click is a no-op exactly during an active
session (phase Playing or Paused) with positive score; in any other
situation — in particular whenever the score is zero, but also in GameOver
or NotStarted with any score — it sets the level and the derived speed
baseSpeedPerLevel * level (hence stepInterval 1 / (baseSpeedPerLevel *
level)). -/
theorem selectDifficulty_gating (lvl : Nat) (s : GameState) :
    (((s.phase = Phase.Playing ∨ s.phase = Phase.Paused) ∧ 0 < s.score) →
      selectDifficulty lvl s = s) ∧
    (¬((s.phase = Phase.Playing ∨ s.phase = Phase.Paused) ∧ 0 < s.score) →
      (selectDifficulty lvl s).level = lvl ∧
      (selectDifficulty lvl s).speed = BASE_SPEED_PER_LEVEL * (lvl : ℚ)) ∧
    (s.score = 0 →
      (selectDifficulty lvl s).level = lvl ∧
      (selectDifficulty lvl s).speed = BASE_SPEED_PER_LEVEL * (lvl : ℚ)) := by
  have hiff := phase_active_iff s
  refine ⟨?_, ?_, ?_⟩
  · rintro ⟨hact, hsc⟩
    obtain ⟨hs, hg⟩ := hiff.mp hact
    unfold selectDifficulty
    rw [if_pos ⟨by simp [hs], by simp [hg], hsc⟩]
  · intro hn
    unfold selectDifficulty
    rw [if_neg ?_]
    · exact ⟨rfl, rfl⟩
    · rintro ⟨h1, h2, h3⟩
      exact hn ⟨hiff.mpr ⟨h1, by simpa using h2⟩, h3⟩
  · intro h0
    unfold selectDifficulty
    rw [if_neg ?_]
    · exact ⟨rfl, rfl⟩
    · rintro ⟨-, -, hsc⟩
      omega

/-- Witness for C7 amended: at gameOverScored (GameOver, score 30) the click
is accepted and rewrites level and speed. -/
theorem selectDifficulty_gating_witness :
    ¬((gameOverScored.phase = Phase.Playing ∨
        gameOverScored.phase = Phase.Paused) ∧ 0 < gameOverScored.score) ∧
    ((selectDifficulty 9 gameOverScored).level = 9 ∧
     (selectDifficulty 9 gameOverScored).speed =
       BASE_SPEED_PER_LEVEL * ((9 : ℕ) : ℚ)) :=
  ⟨by decide, (selectDifficulty_gating 9 gameOverScored).2.1 (by decide)⟩

/-- Any cell the placeFood loop returns misses the snake: the loop only ever
exits on a draw that is off the body. -/
theorem placeFoodFind_not_mem (samples snake : List Pos) (p : Pos)
    (h : placeFoodFind samples snake = some p) : p ∉ snake := by
  unfold placeFoodFind at h
  have h2 := List.find?_some h
  simpa using h2

/-- A finished session carrying half a stepInterval in the accumulator. -/
def accCarry : GameState :=
  { basePlaying with gameOver := true, acc := 1 / 2 }

/-- Counterexample for C8: restart does not touch the step accumulator — a
restart from a GameOver state with acc = 1/2 leaves acc = 1/2, not the
claimed 0. -/
theorem restart_acc_counterexample :
    accCarry.acc = 1 / 2 ∧
    (restart nfC accCarry).acc = 1 / 2 ∧
    ¬((1 : ℚ) / 2 = 0) := by
  refine ⟨rfl, rfl, by norm_num⟩

/-- C8 amended: restart resets the snake body, direction, food (a fresh
placement off the initial body), special food and timer, pendingGrowth,
score and gameOver, and reapplies the speed of the currently selected level;
the step accumulator is left untouched (it is NOT reset to 0); restarting
twice yields the same state as restarting once when the placement draws
coincide. -/
theorem restart_resets (nf : List Pos → Pos) (s : GameState)
    (hnf : nf SNAKE_INITIAL ∉ SNAKE_INITIAL) :
    (restart nf s).snake = SNAKE_INITIAL ∧
    (restart nf s).dir = ⟨1, 0⟩ ∧
    (restart nf s).food = nf SNAKE_INITIAL ∧
    (restart nf s).food ∉ (restart nf s).snake ∧
    (restart nf s).specialFood = none ∧
    (restart nf s).specialRemaining = 0 ∧
    (restart nf s).pendingGrowth = 0 ∧
    (restart nf s).score = 0 ∧
    (restart nf s).gameOver = false ∧
    (restart nf s).level = s.level ∧
    (restart nf s).speed = BASE_SPEED_PER_LEVEL * (s.level : ℚ) ∧
    (restart nf s).acc = s.acc ∧
    restart nf (restart nf s) = restart nf s := by
  refine ⟨rfl, rfl, rfl, hnf, rfl, rfl, rfl, rfl, rfl, rfl, rfl, rfl, rfl⟩

/-- Witness for C8 amended at accCarry with the constant placement oracle. -/
theorem restart_resets_witness :
    nfC SNAKE_INITIAL ∉ SNAKE_INITIAL ∧
    ((restart nfC accCarry).snake = SNAKE_INITIAL ∧
     (restart nfC accCarry).dir = ⟨1, 0⟩ ∧
     (restart nfC accCarry).food = nfC SNAKE_INITIAL ∧
     (restart nfC accCarry).food ∉ (restart nfC accCarry).snake ∧
     (restart nfC accCarry).specialFood = none ∧
     (restart nfC accCarry).specialRemaining = 0 ∧
     (restart nfC accCarry).pendingGrowth = 0 ∧
     (restart nfC accCarry).score = 0 ∧
     (restart nfC accCarry).gameOver = false ∧
     (restart nfC accCarry).level = accCarry.level ∧
     (restart nfC accCarry).speed =
       BASE_SPEED_PER_LEVEL * (accCarry.level : ℚ) ∧
     (restart nfC accCarry).acc = accCarry.acc ∧
     restart nfC (restart nfC accCarry) = restart nfC accCarry) :=
  ⟨by decide, restart_resets nfC accCarry (by decide)⟩

end Snake
